import Mathlib

/-!
Verification of the Handy speech-to-text core against its specification.

The frontend settings code (zod `SettingsSchema`, `GladiaApiSettings.tsx`,
`Settings.tsx`) is embedded directly.  The backend managers (Resampler,
ModelManager, ModelStore, AudioRecordingManager, TranscriptionManager) are
described by the specification only, so their definitions below are modelled
from the spec's words.
-/

namespace Handy

/-! ## Settings schema (from `SettingsSchema` in the zod settings module) -/

/-- Field names of the zod `SettingsSchema` object, in source order. -/
def settingsFields : List String :=
  [ "bindings"
  , "push_to_talk"
  , "audio_feedback"
  , "audio_feedback_volume"
  , "sound_theme"
  , "start_hidden"
  , "autostart_enabled"
  , "selected_model"
  , "always_on_microphone"
  , "selected_microphone"
  , "selected_output_device"
  , "translate_to_english"
  , "selected_language"
  , "overlay_position"
  , "debug_mode"
  , "custom_words"
  , "model_unload_timeout"
  , "word_correction_threshold"
  , "mistral_api_key"
  , "deepgram_api_key"
  , "assemblyai_api_key"
  , "gladia_api_key"
  , "transcription_provider"
  , "history_limit"
  , "paste_method"
  , "clipboard_handling"
  , "mute_while_recording"
  ]

/-- Admissible string values of `ModelUnloadTimeoutSchema` (a `z.enum`),
in source order. -/
def modelUnloadTimeoutValues : List String :=
  ["never", "immediately", "min2", "min5", "min10", "min15", "hour1", "sec5"]

/-- The configuration items listed by the spec's external-interface section
("Configuration input (read-only to this core)"). -/
inductive ConfigItem where
  | selectedModelId
  | providerSelection
  | providerCredentials
  | pushToTalkToggleMode
  | activationHangoverThresholds
  | idleUnloadTimeout
  | customWordList
  | wordCorrectionThreshold
  | translateFlag
  | inputDevice
  | outputDevice
deriving DecidableEq

/-- Which spec-listed configuration item a given settings field configures,
read off the source: each field is wired to exactly one settings UI control
(`ModelSelector`, `PushToTalk`, `TranslateToEnglish`, `CustomWords`,
`WordCorrectionThreshold`, `MicrophoneSelector`, `OutputDeviceSelector`,
the provider API-key panels, and the model-unload timeout). Fields that
configure none of the listed items map to `none`. -/
def itemOf : String → Option ConfigItem
  | "selected_model" => some .selectedModelId
  | "transcription_provider" => some .providerSelection
  | "mistral_api_key" => some .providerCredentials
  | "deepgram_api_key" => some .providerCredentials
  | "assemblyai_api_key" => some .providerCredentials
  | "gladia_api_key" => some .providerCredentials
  | "push_to_talk" => some .pushToTalkToggleMode
  | "model_unload_timeout" => some .idleUnloadTimeout
  | "custom_words" => some .customWordList
  | "word_correction_threshold" => some .wordCorrectionThreshold
  | "translate_to_english" => some .translateFlag
  | "selected_microphone" => some .inputDevice
  | "selected_output_device" => some .outputDevice
  | _ => none

/-- A settings field for the given configuration item exists in the schema. -/
def hasFieldFor (item : ConfigItem) : Prop :=
  ∃ f ∈ settingsFields, itemOf f = some item

instance (item : ConfigItem) : Decidable (hasFieldFor item) := by
  unfold hasFieldFor; infer_instance

/-! ## Gladia API key settings (from `GladiaApiSettings.tsx`) -/

/-- React component state of `GladiaApiSettings`. -/
structure GladiaState where
  apiKey : String
  hasApiKey : Bool
  showApiKey : Bool
deriving DecidableEq

/-- A Tauri command invocation: command name and the `apiKey` argument. -/
structure Invocation where
  cmd : String
  arg : String
deriving DecidableEq

/-- Handler `handleSaveApiKey`: invokes `set_gladia_api_key` with the current
`apiKey`, sets `hasApiKey` to `apiKey.length > 0`, and clears `showApiKey`
when the key string is falsy (empty). Returns the new state and the
invocation performed. -/
def handleSaveApiKey (s : GladiaState) : GladiaState × Invocation :=
  ( { s with
      hasApiKey := decide (s.apiKey.length > 0)
      showApiKey := if s.apiKey = "" then false else s.showApiKey }
  , ⟨"set_gladia_api_key", s.apiKey⟩ )

/-- Handler `handleRemoveApiKey`: invokes `set_gladia_api_key` with the empty
string and clears `apiKey`, `hasApiKey` and `showApiKey`. -/
def handleRemoveApiKey (_s : GladiaState) : GladiaState × Invocation :=
  ( { apiKey := "", hasApiKey := false, showApiKey := false }
  , ⟨"set_gladia_api_key", ""⟩ )

/-! ## Debug-mode keyboard shortcut (from `Settings.tsx`, `handleKeyDown`) -/

/-- The fields of a DOM `KeyboardEvent` that `handleKeyDown` reads. -/
structure KeyEvent where
  key : String
  shiftKey : Bool
  ctrlKey : Bool
  metaKey : Bool

/-- ASCII lowercasing of a key value — the semantics of JavaScript
`toLowerCase()` on the ASCII key names this handler compares against. -/
def keyToLower (s : String) : String := ⟨s.data.map Char.toLower⟩

/-- The guard computed by `handleKeyDown`:
`event.shiftKey && event.key.toLowerCase() === "d" && (event.ctrlKey || event.metaKey)`. -/
def isDebugShortcut (e : KeyEvent) : Bool :=
  e.shiftKey && (keyToLower e.key == "d") && (e.ctrlKey || e.metaKey)

/-- Effect of `handleKeyDown` on the `debug_mode` setting: when the guard
holds, `debug_mode` is set to the negation of `settings?.debug_mode ?? false`;
otherwise the handler leaves it alone.  The setting is `Option Bool` since
`settings` may be absent. -/
def handleKeyDown (debugMode : Option Bool) (e : KeyEvent) : Option Bool :=
  if isDebugShortcut e then some (!(debugMode.getD false)) else debugMode

/-! ## Resampler

Modelled from the spec: the backend Resampler (Rust, `src-tauri`) is not part
of the frontend sources, so it is modelled from the spec's contract: convert
input samples at rate `R` with `C` channels to mono 16000 Hz samples using
linear interpolation; `C > 1` downmixes by channel averaging before rate
conversion; `R = 16000`, `C = 1` is an identity pass. -/

/-- Target sample rate of the pipeline (Whisper input rate). -/
def targetSampleRate : Nat := 16000

/-- Modelled from the spec: channel averaging. The input is a list of
per-sample channel vectors (each of length `c`); the output is mono. -/
def downmix (frames : List (List ℚ)) (c : Nat) : List ℚ :=
  frames.map (fun v => v.sum / (c : ℚ))

/-- Number of output samples produced for `n` input samples at `rate`. -/
def outputLen (n rate : Nat) : Nat := n * targetSampleRate / rate

/-- Linear interpolation of a mono sample list at a fractional position,
holding the last sample at the right edge. -/
def interpAt (xs : List ℚ) (pos : ℚ) : ℚ :=
  let i := (⌊pos⌋).toNat
  let t := pos - (i : ℚ)
  (1 - t) * xs.getD i 0 + t * xs.getD (i + 1) (xs.getD i 0)

/-- Modelled from the spec: rate conversion of a mono sample list to
16000 Hz by linear interpolation, with an identity pass at 16000 Hz. -/
def resampleRate (xs : List ℚ) (rate : Nat) : List ℚ :=
  if rate = targetSampleRate then xs
  else
    (List.range (outputLen xs.length rate)).map
      (fun (k : Nat) => interpAt xs ((k : ℚ) * (rate : ℚ) / (targetSampleRate : ℚ)))

/-- An audio buffer: declared sample rate, channel count, samples. -/
structure AudioBuffer where
  rate : Nat
  channels : Nat
  samples : List ℚ

/-- Modelled from the spec: the full Resampler, downmix then rate
conversion. -/
def resampler (frames : List (List ℚ)) (c rate : Nat) : AudioBuffer :=
  { rate := targetSampleRate
  , channels := 1
  , samples := resampleRate (downmix frames c) rate }

/-- Duration of a buffer in seconds, as a rational. -/
def bufferDuration (b : AudioBuffer) : ℚ := (b.samples.length : ℚ) / (b.rate : ℚ)

/-! ## AudioRecordingManager session state machine

Modelled from the spec: the backend recording manager is not part of the
frontend sources; the session state machine is modelled from the spec. -/

inductive RecordingState where
  | idle | armed | recording | flushing | error
deriving DecidableEq

/-- A recording session: state plus the accumulated speech buffer. -/
structure RecordingSession where
  state : RecordingState
  buffer : List ℚ
deriving DecidableEq

/-- A transcription request handed to the TranscriptionManager. -/
structure TranscriptionRequest where
  segment : List ℚ
deriving DecidableEq

/-- Modelled from the spec: `stop()` is valid from Recording or Armed, where
it flushes and hands the accumulated buffer to the TranscriptionManager and
returns the session to Idle; it is a no-op from Idle (idempotent). States
the spec leaves unspecified (Flushing, Error) are treated as no-ops. -/
def stop (s : RecordingSession) : RecordingSession × Option TranscriptionRequest :=
  match s.state with
  | .recording => (⟨.idle, []⟩, some ⟨s.buffer⟩)
  | .armed => (⟨.idle, []⟩, some ⟨s.buffer⟩)
  | _ => (s, none)

/-! ## TranscriptionManager lane (FIFO result release)

Modelled from the spec: a lane is an independent serialization context;
requests are queued in arrival order and results are released in submission
order even when a later request finishes computation first. Requests are
identified by their submission sequence number. -/

/-- State of one provider lane. -/
structure LaneState where
  nextSeq : Nat
  queue : List Nat
  finished : List Nat
  released : List Nat
deriving DecidableEq

/-- Initial lane state: nothing submitted. -/
def LaneState.init : LaneState := ⟨0, [], [], []⟩

/-- Modelled from the spec: lane transitions. `submit` enqueues a fresh
request at the tail; `finish` records that the inference computation of any
queued request completed (in any order); `release` delivers a result, but
only for the request at the head of the submission queue, and only once its
computation has finished. -/
inductive LaneStep : LaneState → LaneState → Prop where
  | submit (s : LaneState) :
      LaneStep s ⟨s.nextSeq + 1, s.queue ++ [s.nextSeq], s.finished, s.released⟩
  | finish (s : LaneState) (r : Nat) (hq : r ∈ s.queue) :
      LaneStep s ⟨s.nextSeq, s.queue, r :: s.finished, s.released⟩
  | release (s : LaneState) (r : Nat) (rest : List Nat)
      (hq : s.queue = r :: rest) (hf : r ∈ s.finished) :
      LaneStep s ⟨s.nextSeq, rest, s.finished.erase r, s.released ++ [r]⟩

/-- Lane states reachable from the initial state. -/
def LaneReachable (s : LaneState) : Prop :=
  Relation.ReflTransGen LaneStep LaneState.init s

/-! ## ModelManager and ModelStore lifecycle

Modelled from the spec: the backend model managers are not part of the
frontend sources; statuses, `select`, hot-swap, idle-unload and download
steps are modelled from the spec. Model ids are natural numbers. -/

inductive ModelStatus where
  | notPresent
  | downloading (bytesDone bytesTotal : Nat)
  | verifying
  | present
  | loading
  | loaded
  | unloading
  | failed
deriving DecidableEq

/-- Error taxonomy of the spec. -/
inductive HandyError where
  | deviceUnavailable | deviceLost | modelNotLoaded | modelLoadFailed
  | downloadFailed | downloadCancelled | providerUnauthenticated
  | providerRequestFailed | inferenceFailed | invalidAudioInput
deriving DecidableEq

/-- State of the model lifecycle: per-id store status, per-id download-task
existence, whether a transcription request is in flight on the loaded
engine, a queued hot-swap target, and the swap currently in progress. -/
structure MMState where
  store : Nat → ModelStatus
  dl : Nat → Bool
  inflight : Bool
  pending : Option Nat
  target : Option Nat

/-- Pointwise update of a status map. -/
def statusUpdate (f : Nat → ModelStatus) (i : Nat) (st : ModelStatus) :
    Nat → ModelStatus :=
  fun j => if j = i then st else f j

/-- Modelled from the spec: `select(model_id)` requires ModelStore status
Present; if not Present it returns a ModelNotLoaded-class error and does
nothing else. If a request is in flight, or another swap is already in
progress, the swap is queued; otherwise the swap toward the target begins. -/
def select (s : MMState) (id : Nat) : MMState × Option HandyError :=
  if s.store id = .present then
    if s.inflight || s.target.isSome then ({ s with pending := some id }, none)
    else ({ s with target := some id }, none)
  else (s, some .modelNotLoaded)

/-- Modelled from the spec: micro-steps of the model lifecycle. A swap
unloads the previously loaded entry (Loaded → Unloading → Present) before
the target loads (Present → Loading → Loaded); the loaded model is never
evicted while a request is in flight; a queued swap is dequeued when the
in-flight request completes; downloads move an entry through
NotPresent → Downloading → Verifying → Present (or back to NotPresent on
cancellation, or to Failed). -/
inductive MMStep : MMState → MMState → Prop where
  | selectCall (s : MMState) (id : Nat) :
      MMStep s (select s id).1
  | unloadStart (s : MMState) (j : Nat)
      (hl : s.store j = .loaded) (hi : s.inflight = false) :
      MMStep s { s with store := statusUpdate s.store j .unloading }
  | unloadFinish (s : MMState) (j : Nat) (hl : s.store j = .unloading) :
      MMStep s { s with store := statusUpdate s.store j .present }
  | loadStart (s : MMState) (i : Nat)
      (ht : s.target = some i) (hp : s.store i = .present)
      (hno : ∀ j, s.store j ≠ .loaded ∧ s.store j ≠ .loading ∧ s.store j ≠ .unloading) :
      MMStep s { s with store := statusUpdate s.store i .loading }
  | loadFinish (s : MMState) (i : Nat)
      (ht : s.target = some i) (hl : s.store i = .loading) :
      MMStep s { s with store := statusUpdate s.store i .loaded, target := none }
  | loadFail (s : MMState) (i : Nat) (hl : s.store i = .loading) :
      MMStep s { s with store := statusUpdate s.store i .failed, target := none }
  | reqStart (s : MMState) (j : Nat)
      (hl : s.store j = .loaded) (hi : s.inflight = false) :
      MMStep s { s with inflight := true }
  | reqFinishQueued (s : MMState) (id : Nat)
      (hi : s.inflight = true) (ht : s.target = none) (hp : s.pending = some id) :
      MMStep s { s with inflight := false, target := some id, pending := none }
  | reqFinish (s : MMState) (hi : s.inflight = true) (hp : s.pending = none) :
      MMStep s { s with inflight := false }
  | downloadStart (s : MMState) (id total : Nat)
      (h : s.store id = .notPresent) (hdl : s.dl id = false) :
      MMStep s { s with store := statusUpdate s.store id (.downloading 0 total)
                      , dl := fun j => if j = id then true else s.dl j }
  | downloadProgress (s : MMState) (id d d2 total : Nat)
      (h : s.store id = .downloading d total) :
      MMStep s { s with store := statusUpdate s.store id (.downloading d2 total) }
  | downloadVerify (s : MMState) (id d total : Nat)
      (h : s.store id = .downloading d total) :
      MMStep s { s with store := statusUpdate s.store id .verifying }
  | downloadComplete (s : MMState) (id : Nat) (h : s.store id = .verifying) :
      MMStep s { s with store := statusUpdate s.store id .present
                      , dl := fun j => if j = id then false else s.dl j }
  | downloadCancel (s : MMState) (id d total : Nat)
      (h : s.store id = .downloading d total) :
      MMStep s { s with store := statusUpdate s.store id .notPresent
                      , dl := fun j => if j = id then false else s.dl j }
  | downloadFail (s : MMState) (id d total : Nat)
      (h : s.store id = .downloading d total) :
      MMStep s { s with store := statusUpdate s.store id .failed
                      , dl := fun j => if j = id then false else s.dl j }
  | evict (s : MMState) (id : Nat) (h : s.store id = .present) :
      MMStep s { s with store := statusUpdate s.store id .notPresent }

/-- Initial lifecycle state: every catalog entry is Present or NotPresent
(the durable cache may hold artifacts from earlier runs), nothing loaded,
no download, no request, no swap. -/
def MMState.init (onDisk : Nat → Bool) : MMState :=
  { store := fun i => if onDisk i then .present else .notPresent
  , dl := fun _ => false
  , inflight := false
  , pending := none
  , target := none }

/-- Lifecycle states reachable from an initial state. -/
def MMReachable (onDisk : Nat → Bool) (s : MMState) : Prop :=
  Relation.ReflTransGen MMStep (MMState.init onDisk) s

/-- An entry is active when the engine is being initialized or holds it. -/
def activeStatus (st : ModelStatus) : Prop := st = .loading ∨ st = .loaded

/-- At most one entry is Loading or Loaded. -/
def AtMostOneActive (s : MMState) : Prop :=
  ∀ i j, activeStatus (s.store i) → activeStatus (s.store j) → i = j

/-! ## Theorems -/

/-- C2: the idle-unload timer duration is configurable through the
`model_unload_timeout` settings field, and the admissible values of its
`ModelUnloadTimeoutSchema` enum include both "never" and "immediately". -/
theorem modelUnloadTimeout_includes_never_and_immediately :
    "never" ∈ modelUnloadTimeoutValues ∧
    "immediately" ∈ modelUnloadTimeoutValues ∧
    "model_unload_timeout" ∈ settingsFields ∧
    itemOf "model_unload_timeout" = some ConfigItem.idleUnloadTimeout := by
  decide

/-- C1 (counterexample): the claim that every spec-listed configuration item
has a corresponding field in the settings schema is false at the concrete
item "activation/hangover thresholds": no field of `SettingsSchema`
configures the voice-activity activation or hangover thresholds. -/
theorem settings_no_field_for_vad_thresholds :
    ¬ hasFieldFor ConfigItem.activationHangoverThresholds := by
  decide

/-- C1 (amended): every configuration item listed by the spec, except the
activation/hangover thresholds, has a corresponding field in the settings
schema. -/
theorem settings_field_for_each_listed_item (item : ConfigItem)
    (h : item ≠ ConfigItem.activationHangoverThresholds) :
    hasFieldFor item := by
  cases item <;> first
    | exact absurd rfl h
    | decide

/-- Witness for C1 (amended): the selected-model-id item is covered by the
`selected_model` field. -/
theorem settings_field_for_each_listed_item_witness :
    hasFieldFor ConfigItem.selectedModelId :=
  settings_field_for_each_listed_item ConfigItem.selectedModelId (by decide)

/-- C8: after `handleSaveApiKey` the `hasApiKey` flag equals
`apiKey.length > 0`; saving the empty string behaves exactly as removal
(`handleRemoveApiKey` issues the same `set_gladia_api_key` command with the
empty string, and the resulting component states coincide), and on both
paths `hasApiKey` and `showApiKey` end up false. -/
theorem gladia_save_empty_equals_remove (s : GladiaState) :
    (handleSaveApiKey s).1.hasApiKey = decide (s.apiKey.length > 0) ∧
    (handleSaveApiKey s).2.cmd = "set_gladia_api_key" ∧
    (handleRemoveApiKey s).2 = ⟨"set_gladia_api_key", ""⟩ ∧
    (s.apiKey = "" → handleSaveApiKey s = handleRemoveApiKey s) ∧
    (s.apiKey = "" →
      (handleSaveApiKey s).1.hasApiKey = false ∧
      (handleSaveApiKey s).1.showApiKey = false ∧
      (handleRemoveApiKey s).1.hasApiKey = false ∧
      (handleRemoveApiKey s).1.showApiKey = false) := by
  obtain ⟨k, hk, sk⟩ := s
  refine ⟨rfl, rfl, rfl, ?_, ?_⟩ <;> intro h <;>
    simp only at h <;> subst h <;> simp [handleSaveApiKey, handleRemoveApiKey]

/-- Witness for C8: saving from a state whose key input is empty produces
exactly the state and invocation of removal. -/
theorem gladia_save_empty_equals_remove_witness :
    handleSaveApiKey ⟨"", true, true⟩ = handleRemoveApiKey ⟨"", true, true⟩ :=
  (gladia_save_empty_equals_remove ⟨"", true, true⟩).2.2.2.1 rfl

/-- C9: a key event with key "d" (case-insensitive), Shift held, and Ctrl or
Meta held sets `debug_mode` to the negation of its current value (absent
treated as false), so two consecutive such events restore the original
effective `debug_mode`; any other key combination leaves `debug_mode`
unchanged. -/
theorem debug_shortcut_toggles (dm : Option Bool) (e : KeyEvent) :
    (e.shiftKey = true → keyToLower e.key = "d" → (e.ctrlKey = true ∨ e.metaKey = true) →
      handleKeyDown dm e = some (!(dm.getD false)) ∧
      (handleKeyDown (handleKeyDown dm e) e).getD false = dm.getD false) ∧
    (isDebugShortcut e = false → handleKeyDown dm e = dm) := by
  constructor
  · intro hs hd hcm
    have hguard : isDebugShortcut e = true := by
      rcases hcm with h | h <;> simp [isDebugShortcut, hs, hd, h]
    constructor
    · simp [handleKeyDown, hguard]
    · simp [handleKeyDown, hguard]
  · intro h
    simp [handleKeyDown, h]

/-- Witness for C9: pressing Ctrl+Shift+D (with an uppercase "D" key value)
twice starting from an absent `debug_mode` first sets it to true, then back
to effective false; a plain "d" without modifiers changes nothing. -/
theorem debug_shortcut_toggles_witness :
    handleKeyDown none ⟨"D", true, true, false⟩ = some true ∧
    (handleKeyDown (handleKeyDown none ⟨"D", true, true, false⟩)
        ⟨"D", true, true, false⟩).getD false = false ∧
    handleKeyDown (some true) ⟨"d", false, false, false⟩ = some true := by
  have h := (debug_shortcut_toggles none ⟨"D", true, true, false⟩).1 rfl (by decide)
    (Or.inl rfl)
  exact ⟨h.1, h.2, (debug_shortcut_toggles (some true)
    ⟨"d", false, false, false⟩).2 (by decide)⟩

/-- C7: calling `stop()` on a session already in state Idle is a no-op: the
session (state and buffer) is unchanged, no TranscriptionRequest is
produced, and a second `stop()` gives the same result (idempotence). -/
theorem stop_idempotent_from_idle (s : RecordingSession) (h : s.state = .idle) :
    stop s = (s, none) ∧ stop (stop s).1 = (s, none) := by
  obtain ⟨st, buf⟩ := s
  cases st <;> simp_all [stop]

/-- Witness for C7: stopping an idle session with a leftover buffer changes
nothing and emits no request, twice. -/
theorem stop_idempotent_from_idle_witness :
    stop ⟨.idle, [1, 2]⟩ = (⟨.idle, [1, 2]⟩, none) ∧
    stop (stop ⟨.idle, [1, 2]⟩).1 = (⟨.idle, [1, 2]⟩, none) :=
  stop_idempotent_from_idle ⟨.idle, [1, 2]⟩ rfl

/-- C5: when the store status of `id` is not Present, `select` returns a
ModelNotLoaded error, the state is unchanged, no DownloadTask is created,
and the status of the entry is unchanged. -/
theorem select_not_present_no_side_effect (s : MMState) (id : Nat)
    (h : s.store id ≠ .present) :
    (select s id).2 = some HandyError.modelNotLoaded ∧
    (select s id).1 = s ∧
    (select s id).1.dl = s.dl ∧
    (select s id).1.store id = s.store id := by
  have hsel : select s id = (s, some HandyError.modelNotLoaded) := by
    unfold select
    rw [if_neg h]
  rw [hsel]
  exact ⟨rfl, rfl, rfl, rfl⟩

/-- Witness for C5: selecting model 0 from a fresh state where nothing is on
disk fails with ModelNotLoaded and changes nothing. -/
theorem select_not_present_no_side_effect_witness :
    (select (MMState.init fun _ => false) 0).2 = some HandyError.modelNotLoaded ∧
    (select (MMState.init fun _ => false) 0).1 = MMState.init (fun _ => false) := by
  have h := select_not_present_no_side_effect (MMState.init fun _ => false) 0
    (by decide)
  exact ⟨h.1, h.2.1⟩

/-- Invariant of a lane: released results followed by the pending queue are
exactly the submitted sequence numbers, in order. -/
theorem lane_released_append_queue (s : LaneState) (h : LaneReachable s) :
    s.released ++ s.queue = List.range s.nextSeq := by
  induction h with
  | refl => rfl
  | tail _ step ih =>
    cases step with
    | submit =>
      simp [List.range_succ, ← ih]
    | finish r hq =>
      exact ih
    | release r rest hq hf =>
      rw [hq] at ih
      simpa using ih


/-- C4: in every reachable lane state, if a request `b` has been released
and `a` was submitted before `b` (smaller sequence number), then `a` has
been released at an earlier position than `b` — results are delivered in
submission order even when a later request finishes computation first. -/
theorem lane_fifo_order (s : LaneState) (a b : Nat) (h : LaneReachable s)
    (hab : a < b) (hb : b ∈ s.released) :
    ∃ i j : Nat, i < j ∧ s.released[i]? = some a ∧ s.released[j]? = some b := by
  have hinv := lane_released_append_queue s h
  have hpre : s.released = List.range s.released.length := by
    have h1 : s.released = (List.range s.nextSeq).take s.released.length := by
      rw [← hinv, List.take_left]
    have h2 : s.released.length ≤ s.nextSeq := by
      have h3 := congrArg List.length hinv
      simp only [List.length_append, List.length_range] at h3
      omega
    conv_lhs => rw [h1]
    rw [List.take_range, Nat.min_eq_left h2]
  have hbL : b < s.released.length := by
    rw [hpre] at hb
    exact List.mem_range.mp hb
  refine ⟨a, b, hab, ?_, ?_⟩
  · rw [hpre]
    exact List.getElem?_range (lt_trans hab hbL)
  · rw [hpre]
    exact List.getElem?_range hbL

/-- Witness for C4: the trace submit 0, submit 1, finish 1 (the later request
finishes first), finish 0, release 0, release 1 reaches a state whose
release order is still 0 before 1. -/
theorem lane_fifo_order_witness :
    ∃ i j : Nat, i < j ∧
      (LaneState.mk 2 [] [] [0, 1]).released[i]? = some 0 ∧
      (LaneState.mk 2 [] [] [0, 1]).released[j]? = some 1 := by
  have t0 : Relation.ReflTransGen LaneStep LaneState.init LaneState.init :=
    Relation.ReflTransGen.refl
  have t1 : Relation.ReflTransGen LaneStep LaneState.init ⟨1, [0], [], []⟩ :=
    t0.tail (LaneStep.submit _)
  have t2 : Relation.ReflTransGen LaneStep LaneState.init ⟨2, [0, 1], [], []⟩ :=
    t1.tail (LaneStep.submit _)
  have t3 : Relation.ReflTransGen LaneStep LaneState.init ⟨2, [0, 1], [1], []⟩ :=
    t2.tail (LaneStep.finish _ 1 (by decide))
  have t4 : Relation.ReflTransGen LaneStep LaneState.init ⟨2, [0, 1], [0, 1], []⟩ :=
    t3.tail (LaneStep.finish _ 0 (by decide))
  have t5 : Relation.ReflTransGen LaneStep LaneState.init ⟨2, [1], [1], [0]⟩ :=
    t4.tail (LaneStep.release _ 0 [1] rfl (by decide))
  have t6 : Relation.ReflTransGen LaneStep LaneState.init ⟨2, [], [], [0, 1]⟩ :=
    t5.tail (LaneStep.release _ 1 [] rfl (by decide))
  exact lane_fifo_order _ 0 1 t6 (by decide) (by decide)

/-- Helper: updating an entry to an inactive status preserves the
at-most-one-active invariant. -/
theorem atMostOne_fun_update_inactive {f : Nat → ModelStatus}
    (h : ∀ i j, activeStatus (f i) → activeStatus (f j) → i = j)
    (k : Nat) (st : ModelStatus) (hst : ¬ activeStatus st) :
    ∀ i j, activeStatus (statusUpdate f k st i) →
      activeStatus (statusUpdate f k st j) → i = j := by
  intro i j hi hj
  by_cases hik : i = k
  · rw [statusUpdate, if_pos hik] at hi
    exact absurd hi hst
  · rw [statusUpdate, if_neg hik] at hi
    by_cases hjk : j = k
    · rw [statusUpdate, if_pos hjk] at hj
      exact absurd hj hst
    · rw [statusUpdate, if_neg hjk] at hj
      exact h i j hi hj

/-- Helper: when no entry is active, making one entry active yields at most
one active entry. -/
theorem atMostOne_fun_update_fresh {f : Nat → ModelStatus}
    (hno : ∀ j, ¬ activeStatus (f j)) (k : Nat) (st : ModelStatus) :
    ∀ i j, activeStatus (statusUpdate f k st i) →
      activeStatus (statusUpdate f k st j) → i = j := by
  intro i j hi hj
  by_cases hik : i = k
  · by_cases hjk : j = k
    · rw [hik, hjk]
    · rw [statusUpdate, if_neg hjk] at hj
      exact absurd hj (hno j)
  · rw [statusUpdate, if_neg hik] at hi
    exact absurd hi (hno i)

/-- Helper: changing the status of the (unique) active entry preserves the
at-most-one-active invariant, whatever the new status is. -/
theorem atMostOne_fun_update_swap {f : Nat → ModelStatus}
    (h : ∀ i j, activeStatus (f i) → activeStatus (f j) → i = j)
    (k : Nat) (st : ModelStatus) (hk : activeStatus (f k)) :
    ∀ i j, activeStatus (statusUpdate f k st i) →
      activeStatus (statusUpdate f k st j) → i = j := by
  intro i j hi hj
  by_cases hik : i = k
  · by_cases hjk : j = k
    · rw [hik, hjk]
    · rw [statusUpdate, if_neg hjk] at hj
      exact absurd (h j k hj hk) hjk
  · rw [statusUpdate, if_neg hik] at hi
    exact absurd (h i k hi hk) hik

/-- The select operation never changes the store map. -/
theorem select_store_eq (s : MMState) (id : Nat) :
    (select s id).1.store = s.store := by
  unfold select
  split
  · split <;> rfl
  · rfl

/-- Every lifecycle micro-step preserves the at-most-one-active invariant. -/
theorem atMostOneActive_step {s t : MMState} (hst : MMStep s t)
    (h : AtMostOneActive s) : AtMostOneActive t := by
  cases hst with
  | selectCall id =>
    intro i j hi hj
    rw [select_store_eq] at hi hj
    exact h i j hi hj
  | unloadStart j hl hi =>
    exact atMostOne_fun_update_inactive h j .unloading (by simp [activeStatus])
  | unloadFinish j hl =>
    exact atMostOne_fun_update_inactive h j .present (by simp [activeStatus])
  | loadStart i ht hp hno =>
    refine atMostOne_fun_update_fresh ?_ i .loading
    intro j hj
    rcases hj with hj | hj
    · exact (hno j).2.1 hj
    · exact (hno j).1 hj
  | loadFinish i ht hl =>
    exact atMostOne_fun_update_swap h i .loaded (Or.inl hl)
  | loadFail i hl =>
    exact atMostOne_fun_update_inactive h i .failed (by simp [activeStatus])
  | reqStart j hl hi => exact h
  | reqFinishQueued id hi ht hp => exact h
  | reqFinish hi hp => exact h
  | downloadStart id total hdl hdl2 =>
    exact atMostOne_fun_update_inactive h id _ (by simp [activeStatus])
  | downloadProgress id d d2 total hdl =>
    exact atMostOne_fun_update_inactive h id _ (by simp [activeStatus])
  | downloadVerify id d total hdl =>
    exact atMostOne_fun_update_inactive h id .verifying (by simp [activeStatus])
  | downloadComplete id hdl =>
    exact atMostOne_fun_update_inactive h id .present (by simp [activeStatus])
  | downloadCancel id d total hdl =>
    exact atMostOne_fun_update_inactive h id .notPresent (by simp [activeStatus])
  | downloadFail id d total hdl =>
    exact atMostOne_fun_update_inactive h id .failed (by simp [activeStatus])
  | evict id hp =>
    exact atMostOne_fun_update_inactive h id .notPresent (by simp [activeStatus])

/-- Every reachable lifecycle state has at most one Loading-or-Loaded entry. -/
theorem mm_reachable_atMostOneActive (onDisk : Nat → Bool) (s : MMState)
    (h : MMReachable onDisk s) : AtMostOneActive s := by
  induction h with
  | refl =>
    intro a b ha hb
    exfalso
    rcases ha with h1 | h1 <;>
      · simp only [MMState.init] at h1
        split at h1 <;> simp_all
  | tail _ step ih => exact atMostOneActive_step step ih

/-- C3: in every reachable state of the model lifecycle, under any sequence
of select calls (including calls issued while a request is in flight), at
most one entry has status Loaded. -/
theorem mm_at_most_one_loaded (onDisk : Nat → Bool) (s : MMState)
    (h : MMReachable onDisk s) (i j : Nat)
    (hi : s.store i = .loaded) (hj : s.store j = .loaded) : i = j :=
  mm_reachable_atMostOneActive onDisk s h i j (Or.inr hi) (Or.inr hj)

/-- Demonstration states for the witness: everything on disk, select model
0, load it, finish loading. -/
def mmDemo0 : MMState := MMState.init fun _ => true

def mmDemo1 : MMState := (select mmDemo0 0).1

def mmDemo2 : MMState := { mmDemo1 with store := statusUpdate mmDemo1.store 0 .loading }

def mmDemo3 : MMState :=
  { mmDemo2 with store := statusUpdate mmDemo2.store 0 .loaded, target := none }

/-- Witness for C3: after the concrete trace select 0, loadStart 0,
loadFinish 0 from a cache with every model Present, entry 0 is Loaded and
the invariant instantiates at it. -/
theorem mm_at_most_one_loaded_witness :
    mmDemo3.store 0 = ModelStatus.loaded ∧ 0 = 0 := by
  have t0 : Relation.ReflTransGen MMStep mmDemo0 mmDemo0 :=
    Relation.ReflTransGen.refl
  have t1 : Relation.ReflTransGen MMStep mmDemo0 mmDemo1 :=
    t0.tail (MMStep.selectCall mmDemo0 0)
  have t2 : Relation.ReflTransGen MMStep mmDemo0 mmDemo2 :=
    t1.tail (MMStep.loadStart mmDemo1 0 (by decide) (by decide)
      (by intro j
          have hs : mmDemo1.store j = ModelStatus.present := rfl
          rw [hs]
          refine ⟨?_, ?_, ?_⟩ <;> decide))
  have t3 : Relation.ReflTransGen MMStep mmDemo0 mmDemo3 :=
    t2.tail (MMStep.loadFinish mmDemo2 0 (by decide) (by decide))
  exact ⟨by decide, mm_at_most_one_loaded (fun _ => true) mmDemo3 t3 0 0
    (by decide) (by decide)⟩

/-- Length produced by the rate conversion. -/
theorem resampleRate_length (xs : List ℚ) (rate : Nat) :
    (resampleRate xs rate).length =
      if rate = targetSampleRate then xs.length else outputLen xs.length rate := by
  unfold resampleRate
  split
  · rfl
  · rw [List.length_map, List.length_range]

/-- Bounds on the output length: at most the exact rational length, and
short of it by less than one output sample. -/
theorem outputLen_bounds (n rate : Nat) (hrate : 0 < rate) :
    outputLen n rate * rate ≤ n * targetSampleRate ∧
    n * targetSampleRate < (outputLen n rate + 1) * rate := by
  constructor
  · exact Nat.div_mul_le_self _ _
  · have hmod : n * targetSampleRate % rate < rate := Nat.mod_lt _ hrate
    have hdiv := Nat.div_add_mod (n * targetSampleRate) rate
    calc n * targetSampleRate
        = rate * (n * targetSampleRate / rate) + n * targetSampleRate % rate :=
          hdiv.symm
      _ < rate * (n * targetSampleRate / rate) + rate := by omega
      _ = (n * targetSampleRate / rate + 1) * rate := by ring
  
/-- Duration error of the rate conversion is below one output sample. -/
theorem duration_error_bound (n rate : Nat) (hrate : 0 < rate) :
    |(((if rate = targetSampleRate then n else outputLen n rate) : Nat) : ℚ) /
        (targetSampleRate : ℚ) - (n : ℚ) / (rate : ℚ)| ≤
      1 / (targetSampleRate : ℚ) := by
  have hT : (0 : ℚ) < (targetSampleRate : ℚ) := by norm_num [targetSampleRate]
  by_cases h : rate = targetSampleRate
  · subst h
    simp only [if_pos rfl, sub_self, abs_zero]
    norm_num
  · rw [if_neg h]
    have hR : (0 : ℚ) < (rate : ℚ) := by exact_mod_cast hrate
    obtain ⟨h1, h2⟩ := outputLen_bounds n rate hrate
    have hle : ((outputLen n rate : ℚ)) / (targetSampleRate : ℚ) ≤ (n : ℚ) / (rate : ℚ) := by
      rw [div_le_div_iff₀ hT hR]
      exact_mod_cast h1
    have hlt : (n : ℚ) / (rate : ℚ) ≤ ((outputLen n rate : ℚ) + 1) / (targetSampleRate : ℚ) := by
      rw [div_le_div_iff₀ hR hT]
      exact_mod_cast le_of_lt h2
    have hsplit : ((outputLen n rate : ℚ) + 1) / (targetSampleRate : ℚ) =
        (outputLen n rate : ℚ) / (targetSampleRate : ℚ) + 1 / (targetSampleRate : ℚ) :=
      add_div _ _ _
    rw [abs_le]
    constructor
    · rw [hsplit] at hlt
      linarith
    · have hpos : (0 : ℚ) ≤ 1 / (targetSampleRate : ℚ) := by positivity
      linarith

/-- Per-sample channel sums of single-channel frames are the frames
themselves, flattened. -/
theorem map_sum_eq_flatten (frames : List (List ℚ))
    (h : ∀ v ∈ frames, v.length = 1) :
    frames.map (fun v => v.sum) = frames.flatten := by
  induction frames with
  | nil => rfl
  | cons v rest ih =>
    have hv : v.length = 1 := h v (List.mem_cons_self _ _)
    cases v with
    | nil => simp at hv
    | cons a t =>
      cases t with
      | nil =>
        simp only [List.map_cons, List.flatten_cons, List.sum_cons, List.sum_nil,
          add_zero, List.singleton_append]
        rw [ih (fun w hw => h w (List.mem_cons_of_mem _ hw))]
      | cons b t2 => simp at hv

/-- C6: for every supported input rate and channel count, the Resampler
output is mono at 16000 Hz, its duration matches the input duration within
one output sample, and for rate 16000 with one channel the output equals
the input samples (identity pass). -/
theorem resampler_mono_16k (frames : List (List ℚ)) (c rate : Nat)
    (hr : rate ∈ ([8000, 16000, 22050, 44100, 48000] : List Nat))
    (hc : c ∈ ([1, 2] : List Nat)) :
    (resampler frames c rate).rate = targetSampleRate ∧
    (resampler frames c rate).channels = 1 ∧
    |bufferDuration (resampler frames c rate) -
        (frames.length : ℚ) / (rate : ℚ)| ≤ 1 / (targetSampleRate : ℚ) ∧
    (rate = targetSampleRate → c = 1 → (∀ v ∈ frames, v.length = 1) →
      (resampler frames c rate).samples = frames.flatten) := by
  have hrate : 0 < rate := by
    simp only [List.mem_cons, List.mem_singleton, List.not_mem_nil, or_false] at hr
    rcases hr with rfl | rfl | rfl | rfl | rfl <;> norm_num
  refine ⟨rfl, rfl, ?_, ?_⟩
  · have hb := duration_error_bound frames.length rate hrate
    have hdur : bufferDuration (resampler frames c rate) =
        (((if rate = targetSampleRate then frames.length
            else outputLen frames.length rate) : Nat) : ℚ) / (targetSampleRate : ℚ) := by
      simp [bufferDuration, resampler, resampleRate_length, downmix]
    rw [hdur]
    exact hb
  · intro h16 hc1 hlen
    subst h16
    subst hc1
    show resampleRate (downmix frames 1) targetSampleRate = frames.flatten
    unfold resampleRate
    rw [if_pos rfl]
    unfold downmix
    simp only [Nat.cast_one, div_one]
    exact map_sum_eq_flatten frames hlen

/-- Witness for C6: a concrete two-frame mono buffer at 16000 Hz passes
through the Resampler unchanged. -/
theorem resampler_mono_16k_witness :
    (resampler [[1], [2]] 1 16000).samples = ([[1], [2]] : List (List ℚ)).flatten :=
  (resampler_mono_16k [[1], [2]] 1 16000 (by decide) (by decide)).2.2.2 rfl rfl
    (by decide)

end Handy
